import Mathlib

/-!
Verification development for the xiaozhi-esp32 m5stack voice appliance core.

Each definition is a shallow embedding of a function of the repository
(src/main/...), translated as directly as Lean allows.  Where a claim
depends on a translation unit that is not part of src/ (the protocol and
application .cc files, of which only headers are present), the definition
is modelled from the specification and its doc comment says so.
-/

namespace XiaoZhi

/-! ## BackgroundTask (src/main/background_task.cc, background_task.h)

State of the scheduler as a transition system:
  - `pending`  models `main_tasks_` (the queued, not yet drained work items,
    identified by numeric ids in enqueue order);
  - `batch`    models the worker's local `tasks` list after the
    `std::move(main_tasks_)` swap in `BackgroundTaskLoop` (drained but not
    yet executed items);
  - `executed` records the ids of the wrapped callbacks that have run, in
    execution order;
  - `active`   models `active_tasks_` (incremented in `Schedule`,
    decremented at the end of each wrapped callback).
-/

structure BTState where
  pending : List Nat
  batch : List Nat
  executed : List Nat
  active : Nat
deriving DecidableEq, Repr

def BTState.init : BTState := ⟨[], [], [], 0⟩

/-- Events of the scheduler:
`schedule n` is `BackgroundTask::Schedule` enqueueing item `n`;
`drain` is the worker's `std::move(main_tasks_)` swap (it fires only after
the condition-variable wait sees a non-empty queue, and only once the
previous batch has fully executed, since there is a single worker);
`exec` runs the next wrapped callback of the current batch (the callback
body followed by the `active_tasks_--` completion side effect);
`waitReturn` is `WaitForCompletion` returning, enabled exactly when its
wait predicate `main_tasks_.empty() && active_tasks_ == 0` holds. -/
inductive BTEvent where
  | schedule (n : Nat)
  | drain
  | exec
  | waitReturn
deriving DecidableEq, Repr

def step (s : BTState) : BTEvent → Option BTState
  | BTEvent.schedule n =>
      some { s with pending := s.pending ++ [n], active := s.active + 1 }
  | BTEvent.drain =>
      if s.pending ≠ [] ∧ s.batch = [] then
        some { s with batch := s.pending, pending := [] }
      else none
  | BTEvent.exec =>
      match s.batch with
      | [] => none
      | n :: rest =>
          some { s with batch := rest, executed := s.executed ++ [n],
                        active := s.active - 1 }
  | BTEvent.waitReturn =>
      if s.pending = [] ∧ s.active = 0 then some s else none

def run (s : BTState) : List BTEvent → Option BTState
  | [] => some s
  | e :: es => Option.bind (step s e) (fun t => run t es)

/-- The ids passed to `Schedule`, in call order. -/
def scheduledIds : List BTEvent → List Nat
  | [] => []
  | BTEvent.schedule n :: es => n :: scheduledIds es
  | BTEvent.drain :: es => scheduledIds es
  | BTEvent.exec :: es => scheduledIds es
  | BTEvent.waitReturn :: es => scheduledIds es

theorem step_schedule_eq (s : BTState) (n : Nat) :
    step s (BTEvent.schedule n) =
      some { s with pending := s.pending ++ [n], active := s.active + 1 } := rfl

theorem step_drain_eq (s t : BTState) (h : step s BTEvent.drain = some t) :
    s.batch = [] ∧ t = { s with batch := s.pending, pending := [] } := by
  unfold step at h
  by_cases hc : s.pending ≠ [] ∧ s.batch = []
  · rw [if_pos hc] at h
    exact ⟨hc.2, (Option.some.inj h).symm⟩
  · rw [if_neg hc] at h
    cases h

theorem step_exec_eq (s t : BTState) (h : step s BTEvent.exec = some t) :
    ∃ n rest, s.batch = n :: rest ∧
      t = { s with batch := rest, executed := s.executed ++ [n],
                   active := s.active - 1 } := by
  unfold step at h
  cases hb : s.batch with
  | nil => rw [hb] at h; cases h
  | cons n rest =>
      rw [hb] at h
      exact ⟨n, rest, rfl, (Option.some.inj h).symm⟩

theorem step_wait_eq (s t : BTState) (h : step s BTEvent.waitReturn = some t) :
    s.pending = [] ∧ s.active = 0 ∧ t = s := by
  unfold step at h
  by_cases hc : s.pending = [] ∧ s.active = 0
  · rw [if_pos hc] at h
    exact ⟨hc.1, hc.2, (Option.some.inj h).symm⟩
  · rw [if_neg hc] at h
    cases h

theorem run_append (a b : List BTEvent) :
    ∀ s, run s (a ++ b) = Option.bind (run s a) (fun t => run t b) := by
  induction a with
  | nil => intro s; simp [run]
  | cons e es ih =>
      intro s
      simp only [List.cons_append, run]
      cases step s e with
      | none => simp
      | some t => simp [ih t]

/-- Content invariant: along any valid run, the executed ids followed by the
current batch and the pending queue are exactly the initial contents plus
the ids scheduled during the run, in order. -/
theorem run_content : ∀ (evs : List BTEvent) (s0 s : BTState),
    run s0 evs = some s →
    s.executed ++ s.batch ++ s.pending =
      s0.executed ++ s0.batch ++ s0.pending ++ scheduledIds evs := by
  intro evs
  induction evs with
  | nil =>
      intro s0 s h
      simp only [run, Option.some.injEq] at h
      subst h
      simp [scheduledIds]
  | cons e es ih =>
      intro s0 s h
      simp only [run] at h
      cases hstep : step s0 e with
      | none => rw [hstep] at h; cases h
      | some s1 =>
          rw [hstep] at h
          simp only [Option.some_bind] at h
          have h1 := ih s1 s h
          cases e with
          | schedule n =>
              rw [step_schedule_eq] at hstep
              have hs1 := Option.some.inj hstep
              rw [h1, ← hs1]
              simp [scheduledIds, List.append_assoc]
          | drain =>
              obtain ⟨hb0, hs1⟩ := step_drain_eq s0 s1 hstep
              rw [h1, hs1]
              simp [scheduledIds, hb0, List.append_assoc]
          | exec =>
              obtain ⟨n, rest, hb0, hs1⟩ := step_exec_eq s0 s1 hstep
              rw [h1, hs1]
              simp [scheduledIds, hb0, List.append_assoc]
          | waitReturn =>
              obtain ⟨hp, ha, hs1⟩ := step_wait_eq s0 s1 hstep
              rw [h1, hs1]
              simp [scheduledIds]

/-- Accounting invariant: `active_tasks_` always equals the number of
drained-but-unfinished items plus the number of queued items. -/
theorem run_active : ∀ (evs : List BTEvent) (s0 s : BTState),
    run s0 evs = some s →
    s0.active = s0.batch.length + s0.pending.length →
    s.active = s.batch.length + s.pending.length := by
  intro evs
  induction evs with
  | nil =>
      intro s0 s h h0
      simp only [run, Option.some.injEq] at h
      subst h
      exact h0
  | cons e es ih =>
      intro s0 s h h0
      simp only [run] at h
      cases hstep : step s0 e with
      | none => rw [hstep] at h; cases h
      | some s1 =>
          rw [hstep] at h
          simp only [Option.some_bind] at h
          refine ih s1 s h ?_
          cases e with
          | schedule n =>
              rw [step_schedule_eq] at hstep
              have hs1 := Option.some.inj hstep
              rw [← hs1]
              simp only [List.length_append, List.length_cons, List.length_nil]
              omega
          | drain =>
              obtain ⟨hb0, hs1⟩ := step_drain_eq s0 s1 hstep
              rw [hs1]
              simp only [List.length_nil]
              rw [h0, hb0]
              simp
          | exec =>
              obtain ⟨n, rest, hb0, hs1⟩ := step_exec_eq s0 s1 hstep
              rw [hs1]
              simp only []
              rw [h0, hb0]
              simp only [List.length_cons]
              omega
          | waitReturn =>
              obtain ⟨hp, ha, hs1⟩ := step_wait_eq s0 s1 hstep
              rw [hs1]
              exact h0

/-- C1: for every sequence of Schedule calls followed by a WaitForCompletion
that returns (with no further work scheduled concurrently with the wait),
every scheduled callback — including its completion side effect, the
`active_tasks_` decrement — has executed exactly once before the wait
returns: the executed list equals the scheduled ids in order, so each id is
executed exactly as many times as it was scheduled. -/
theorem background_wait_executes_all_exactly_once
    (evs : List BTEvent) (s : BTState)
    (h : run BTState.init (evs ++ [BTEvent.waitReturn]) = some s) :
    s.executed = scheduledIds evs ∧
    ∀ n, s.executed.count n = (scheduledIds evs).count n := by
  rw [run_append] at h
  cases h1 : run BTState.init evs with
  | none => rw [h1] at h; cases h
  | some s1 =>
      rw [h1] at h
      simp only [Option.some_bind] at h
      cases hstep : step s1 BTEvent.waitReturn with
      | none => simp [run, hstep] at h
      | some s2 =>
          simp only [run, hstep, Option.some_bind, Option.some.injEq] at h
          obtain ⟨hp, ha, hs2⟩ := step_wait_eq s1 s2 hstep
          have hact := run_active evs BTState.init s1 h1 (by simp [BTState.init])
          have hbatch : s1.batch = [] := by
            rw [ha, hp] at hact
            simp at hact
            exact List.length_eq_zero.mp (by omega)
          have hcont := run_content evs BTState.init s1 h1
          rw [hp, hbatch] at hcont
          simp [BTState.init] at hcont
          have hexec : s.executed = scheduledIds evs := by
            rw [← h, hs2]
            exact hcont
          exact ⟨hexec, fun n => by rw [hexec]⟩

/-- Concrete instance of C1: schedule items 1 and 2, drain, execute both,
then the wait returns with exactly [1, 2] executed. -/
theorem background_wait_executes_all_exactly_once_witness :
    (BTState.mk [] [] [1, 2] 0).executed =
      scheduledIds [BTEvent.schedule 1, BTEvent.schedule 2, BTEvent.drain,
                    BTEvent.exec, BTEvent.exec] :=
  (background_wait_executes_all_exactly_once
    [BTEvent.schedule 1, BTEvent.schedule 2, BTEvent.drain,
     BTEvent.exec, BTEvent.exec]
    (BTState.mk [] [] [1, 2] 0) (by decide)).1

/-- Without a drain event, no id outside the current batch (and not already
executed) can become executed: `exec` only consumes the drained batch, and
`schedule` only appends to the pending queue. -/
theorem run_no_drain_no_new_exec : ∀ (more : List BTEvent) (t u : BTState) (n : Nat),
    BTEvent.drain ∉ more → n ∉ t.batch → n ∉ t.executed →
    run t more = some u → n ∉ u.batch ∧ n ∉ u.executed := by
  intro more
  induction more with
  | nil =>
      intro t u n _ hb he h
      simp only [run, Option.some.injEq] at h
      subst h
      exact ⟨hb, he⟩
  | cons e es ih =>
      intro t u n hd hb he h
      have hd2 : BTEvent.drain ∉ es := fun hc => hd (List.mem_cons_of_mem e hc)
      simp only [run] at h
      cases hstep : step t e with
      | none => rw [hstep] at h; cases h
      | some t1 =>
          rw [hstep] at h
          simp only [Option.some_bind] at h
          cases e with
          | schedule m =>
              rw [step_schedule_eq] at hstep
              have ht1 := Option.some.inj hstep
              exact ih t1 u n hd2 (ht1 ▸ hb) (ht1 ▸ he) h
          | drain =>
              exact absurd (List.mem_cons_self BTEvent.drain es) hd
          | exec =>
              obtain ⟨m, rest, hb0, ht1⟩ := step_exec_eq t t1 hstep
              rw [hb0] at hb
              have hnm : n ≠ m := fun hc => hb (hc ▸ List.mem_cons_self m rest)
              have hnr : n ∉ rest := fun hc => hb (List.mem_cons_of_mem m hc)
              refine ih t1 u n hd2 ?_ ?_ h
              · rw [ht1]; exact hnr
              · rw [ht1]
                simp only [List.mem_append, List.mem_singleton]
                rintro (hc | hc)
                · exact he hc
                · exact hnm hc
          | waitReturn =>
              obtain ⟨hp, ha, ht1⟩ := step_wait_eq t t1 hstep
              exact ih t1 u n hd2 (ht1 ▸ hb) (ht1 ▸ he) h

/-- C5: the worker drains the whole queued batch atomically with respect to
enqueue.  (1) along any run, the executed ids form an initial segment of the
enqueue order (strict in-batch enqueue-order execution); (2) a drain can
only fire once the previous batch has fully executed, so a new batch starts
only after the current one is done; (3) `Schedule` only appends to the
pending queue, never to the executing batch or the executed list; (4) an
item scheduled while a batch is executing is never executed until a further
drain occurs, i.e. only in a later batch. -/
theorem background_batch_atomic_in_order (evs : List BTEvent) (s : BTState)
    (h : run BTState.init evs = some s) :
    (∃ rest, s.executed ++ rest = scheduledIds evs) ∧
    (∀ t u, step t BTEvent.drain = some u → t.batch = []) ∧
    (∀ t n, step t (BTEvent.schedule n) =
        some { t with pending := t.pending ++ [n], active := t.active + 1 }) ∧
    (∀ t u n more, BTEvent.drain ∉ more → n ∉ t.batch → n ∉ t.executed →
        run t (BTEvent.schedule n :: more) = some u → n ∉ u.executed) := by
  refine ⟨?_, ?_, ?_, ?_⟩
  · have hc := run_content evs BTState.init s h
    simp [BTState.init] at hc
    exact ⟨s.batch ++ s.pending, hc⟩
  · intro t u hstep
    exact (step_drain_eq t u hstep).1
  · intro t n
    exact step_schedule_eq t n
  · intro t u n more hd hb he hrun
    simp only [run, step_schedule_eq, Option.some_bind] at hrun
    exact (run_no_drain_no_new_exec more
      { t with pending := t.pending ++ [n], active := t.active + 1 }
      u n hd hb he hrun).2

/-- Concrete instance of C5: after scheduling 1 and 2, draining and
executing one item, the executed list [1] is an initial segment of the
enqueue order [1, 2]. -/
theorem background_batch_atomic_in_order_witness :
    ∃ rest, (BTState.mk [] [2] [1] 1).executed ++ rest =
      scheduledIds [BTEvent.schedule 1, BTEvent.schedule 2, BTEvent.drain,
                    BTEvent.exec] :=
  (background_batch_atomic_in_order
    [BTEvent.schedule 1, BTEvent.schedule 2, BTEvent.drain, BTEvent.exec]
    (BTState.mk [] [2] [1] 1) (by decide)).1

/-- `BackgroundTask::Schedule` (src/main/background_task.cc lines 50-75):
under the queue mutex it checks `active_tasks_ >= 30`, reads the free
internal SRAM, and logs a warning when that is below 10000 bytes; it then
unconditionally increments `active_tasks_` and appends the wrapped callback
to `main_tasks_`.  The returned Bool records whether the warning fired. -/
def btSchedule (s : BTState) (free_sram : Int) (n : Nat) : BTState × Bool :=
  let warned := if 30 ≤ s.active then (if free_sram < 10000 then true else false)
                else false
  ({ s with pending := s.pending ++ [n], active := s.active + 1 }, warned)

/-- C7 counterexample: with exactly 30 active tasks — a count that does not
exceed the high-water mark of 30 — and low free memory (9999 bytes),
`Schedule` does raise the warning, contradicting the claim that the warning
fires exactly when the count exceeds 30. -/
theorem schedule_warns_at_exact_watermark :
    (btSchedule (BTState.mk [] [] [] 30) 9999 0).2 = true ∧
    ¬((30 : Nat) > 30 ∧ (9999 : Int) < 10000) := by
  constructor
  · rfl
  · intro hc
    exact absurd hc.1 (by omega)

/-- C7 (amended): during `Schedule`, the warning is raised exactly when the
active-task count at entry has reached the high-water mark of 30 (count
greater than or equal to 30) and free internal SRAM is below 10000 bytes;
the warning is non-fatal: the work item is still enqueued and the
active-count still incremented in every case. -/
theorem schedule_warning_iff_watermark_reached
    (s : BTState) (free_sram : Int) (n : Nat) :
    ((btSchedule s free_sram n).2 = true ↔
      (30 ≤ s.active ∧ free_sram < 10000)) ∧
    (btSchedule s free_sram n).1.pending = s.pending ++ [n] ∧
    (btSchedule s free_sram n).1.active = s.active + 1 := by
  refine ⟨?_, rfl, rfl⟩
  simp only [btSchedule]
  by_cases h30 : 30 ≤ s.active
  · by_cases hm : free_sram < 10000
    · simp [h30, hm]
    · simp [h30, hm]
  · simp [h30]

/-- Concrete instance of the amended C7 at the threshold input. -/
theorem schedule_warning_iff_watermark_reached_witness :
    ((btSchedule (BTState.mk [] [] [] 30) 9999 5).2 = true ↔
      (30 ≤ (BTState.mk [] [] [] 30).active ∧ (9999 : Int) < 10000)) ∧
    (btSchedule (BTState.mk [] [] [] 30) 9999 5).1.pending = [] ++ [5] ∧
    (btSchedule (BTState.mk [] [] [] 30) 9999 5).1.active = 30 + 1 :=
  schedule_warning_iff_watermark_reached (BTState.mk [] [] [] 30) 9999 5

/-! ## Settings (src/main/settings.cc, settings.h)

The NVS namespace opened by a `Settings` handle is embedded as an
association list from keys to values; `dirty_` and `read_write_` are kept
as in the source.  Each mutator returns the updated handle together with a
Bool that records whether the "not open for writing" warning was logged. -/

inductive NvsValue where
  | str (s : String)
  | int (i : Int)
deriving DecidableEq, Repr

def storeSet : List (String × NvsValue) → String → NvsValue →
    List (String × NvsValue)
  | [], k, v => [(k, v)]
  | (k2, v2) :: rest, k, v =>
      if k2 = k then (k, v) :: rest else (k2, v2) :: storeSet rest k v

def storeErase : List (String × NvsValue) → String → List (String × NvsValue)
  | [], _ => []
  | (k2, v2) :: rest, k =>
      if k2 = k then rest else (k2, v2) :: storeErase rest k

def storeGet : List (String × NvsValue) → String → Option NvsValue
  | [], _ => none
  | (k2, v2) :: rest, k => if k2 = k then some v2 else storeGet rest k

structure Settings where
  ns : String
  read_write : Bool
  dirty : Bool
  store : List (String × NvsValue)
deriving DecidableEq, Repr

/-- `Settings::SetString`: writes and marks dirty only when the handle was
opened read-write; otherwise only logs a warning. -/
def Settings.SetString (st : Settings) (key value : String) : Settings × Bool :=
  if st.read_write then
    ({ st with store := storeSet st.store key (NvsValue.str value),
               dirty := true }, false)
  else (st, true)

/-- `Settings::SetInt`: same structure as `SetString`. -/
def Settings.SetInt (st : Settings) (key : String) (value : Int) :
    Settings × Bool :=
  if st.read_write then
    ({ st with store := storeSet st.store key (NvsValue.int value),
               dirty := true }, false)
  else (st, true)

/-- `Settings::EraseKey`: erases only when read-write (a missing key is not
an error); otherwise only logs a warning.  Note the source does not set
`dirty_` here. -/
def Settings.EraseKey (st : Settings) (key : String) : Settings × Bool :=
  if st.read_write then ({ st with store := storeErase st.store key }, false)
  else (st, true)

/-- `Settings::EraseAll`: erases the whole namespace only when read-write;
otherwise only logs a warning. -/
def Settings.EraseAll (st : Settings) : Settings × Bool :=
  if st.read_write then ({ st with store := [] }, false)
  else (st, true)

/-- `Settings::~Settings`: `nvs_commit` runs exactly when the handle was
opened read-write and a change was recorded (`read_write_ && dirty_`). -/
def Settings.DestructorCommits (st : Settings) : Bool :=
  st.read_write && st.dirty

/-- `Settings::GetInt`: returns the stored value when present as an
integer, the supplied default otherwise. -/
def Settings.GetInt (st : Settings) (key : String) (default_value : Int) : Int :=
  match storeGet st.store key with
  | some (NvsValue.int v) => v
  | _ => default_value

/-- C9: for every `Settings` handle opened with read_write = false, the
mutating operations `SetString`, `SetInt`, `EraseKey` and `EraseAll` leave
the handle (hence the persistent store) completely unchanged and only log a
warning, and destruction of such a handle performs no commit. -/
theorem readonly_settings_no_mutation (st : Settings) (k v : String) (n : Int)
    (h : st.read_write = false) :
    st.SetString k v = (st, true) ∧
    st.SetInt k n = (st, true) ∧
    st.EraseKey k = (st, true) ∧
    st.EraseAll = (st, true) ∧
    st.DestructorCommits = false := by
  simp [Settings.SetString, Settings.SetInt, Settings.EraseKey,
        Settings.EraseAll, Settings.DestructorCommits, h]

/-- Concrete instance of C9 on a read-only handle of the "audio"
namespace. -/
theorem readonly_settings_no_mutation_witness :
    (Settings.mk ("audio") false false
        [(("output_volume"), NvsValue.int 70)]).SetString ("a") ("b") =
      (Settings.mk ("audio") false false
        [(("output_volume"), NvsValue.int 70)], true) ∧
    (Settings.mk ("audio") false false
        [(("output_volume"), NvsValue.int 70)]).SetInt ("a") 1 =
      (Settings.mk ("audio") false false
        [(("output_volume"), NvsValue.int 70)], true) ∧
    (Settings.mk ("audio") false false
        [(("output_volume"), NvsValue.int 70)]).EraseKey ("a") =
      (Settings.mk ("audio") false false
        [(("output_volume"), NvsValue.int 70)], true) ∧
    (Settings.mk ("audio") false false
        [(("output_volume"), NvsValue.int 70)]).EraseAll =
      (Settings.mk ("audio") false false
        [(("output_volume"), NvsValue.int 70)], true) ∧
    (Settings.mk ("audio") false false
        [(("output_volume"), NvsValue.int 70)]).DestructorCommits = false :=
  readonly_settings_no_mutation
    (Settings.mk ("audio") false false [(("output_volume"), NvsValue.int 70)])
    ("a") ("b") 1 rfl

/-! ## AudioCodec::Start (src/main/audio_codecs/audio_codec.cc lines 60-74)

`Start` opens the "audio" settings namespace read-only, loads
"output_volume" with the current member value as default, and replaces the
result by 10 when it is not strictly positive. -/

def AudioCodecStartVolume (audioSettings : Settings) (output_volume : Int) :
    Int :=
  let v := audioSettings.GetInt ("output_volume") output_volume
  if v ≤ 0 then 10 else v

/-- C10: after `AudioCodec::Start` the output volume is strictly positive:
when the persisted "output_volume" value is at most zero it is replaced by
the default 10, and a strictly positive persisted value is kept
unchanged. -/
theorem audio_codec_start_positive_volume (st : Settings) (cur : Int) :
    0 < AudioCodecStartVolume st cur ∧
    (∀ p, storeGet st.store ("output_volume") = some (NvsValue.int p) →
      (p ≤ 0 → AudioCodecStartVolume st cur = 10) ∧
      (0 < p → AudioCodecStartVolume st cur = p)) := by
  constructor
  · simp only [AudioCodecStartVolume]
    split
    · omega
    · omega
  · intro p hp
    have hv : st.GetInt ("output_volume") cur = p := by
      simp [Settings.GetInt, hp]
    constructor
    · intro hle
      simp only [AudioCodecStartVolume, hv]
      rw [if_pos hle]
    · intro hpos
      simp only [AudioCodecStartVolume, hv]
      rw [if_neg (by omega)]

/-- Concrete instance of C10: a persisted volume of -3 is replaced by 10,
and the result is strictly positive. -/
theorem audio_codec_start_positive_volume_witness :
    0 < AudioCodecStartVolume
        (Settings.mk ("audio") false false
          [(("output_volume"), NvsValue.int (-3))]) 70 ∧
    AudioCodecStartVolume
        (Settings.mk ("audio") false false
          [(("output_volume"), NvsValue.int (-3))]) 70 = 10 :=
  ⟨(audio_codec_start_positive_volume
      (Settings.mk ("audio") false false
        [(("output_volume"), NvsValue.int (-3))]) 70).1,
   ((audio_codec_start_positive_volume
      (Settings.mk ("audio") false false
        [(("output_volume"), NvsValue.int (-3))]) 70).2 (-3) rfl).1
     (by omega)⟩

/-! ## Outbound audio queue bound (src/main/application.h lines 59-61, 133)

The capacity constants are those of application.h; the enqueue procedure
itself lives in application.cc, which is not under src/, so it is modelled
from the spec. -/

def OPUS_FRAME_DURATION_MS : Nat := 60

def MAX_AUDIO_PACKETS_IN_QUEUE : Nat := 2400 / OPUS_FRAME_DURATION_MS

structure AudioStreamPacket where
  timestamp : Nat
  payload : List Nat
deriving DecidableEq, Repr

/-- Modelled from the spec: the push onto `Application::audio_send_queue_`
is implemented in application.cc, which is not under src/.  Spec section 4.3:
when the outbound queue is at capacity the implementation either drops the
incoming frame or drops the oldest queued frame (both admissible policies
are covered by the `dropOldest` flag); it never grows the queue past the
capacity and never blocks the capture loop. -/
def pushOutbound (dropOldest : Bool) (q : List AudioStreamPacket)
    (p : AudioStreamPacket) : List AudioStreamPacket :=
  if q.length < MAX_AUDIO_PACKETS_IN_QUEUE then q ++ [p]
  else if dropOldest then q.drop 1 ++ [p]
  else q

def pushOutboundAll (dropOldest : Bool) (q : List AudioStreamPacket) :
    List AudioStreamPacket → List AudioStreamPacket
  | [] => q
  | p :: ps => pushOutboundAll dropOldest (pushOutbound dropOldest q p) ps

theorem pushOutbound_length (dropOldest : Bool) (q : List AudioStreamPacket)
    (p : AudioStreamPacket) (h : q.length ≤ MAX_AUDIO_PACKETS_IN_QUEUE) :
    (pushOutbound dropOldest q p).length =
      min (q.length + 1) MAX_AUDIO_PACKETS_IN_QUEUE := by
  have hcap : MAX_AUDIO_PACKETS_IN_QUEUE = 40 := rfl
  simp only [pushOutbound]
  by_cases hlt : q.length < MAX_AUDIO_PACKETS_IN_QUEUE
  · rw [if_pos hlt]
    simp only [List.length_append, List.length_cons, List.length_nil]
    omega
  · rw [if_neg hlt]
    have heq : q.length = MAX_AUDIO_PACKETS_IN_QUEUE := by omega
    cases dropOldest with
    | true =>
        rw [if_pos rfl]
        simp only [List.length_append, List.length_drop,
                   List.length_cons, List.length_nil]
        omega
    | false =>
        rw [if_neg (by simp)]
        omega

theorem pushOutboundAll_length (dropOldest : Bool) :
    ∀ (stream q : List AudioStreamPacket),
    q.length ≤ MAX_AUDIO_PACKETS_IN_QUEUE →
    (pushOutboundAll dropOldest q stream).length =
      min (q.length + stream.length) MAX_AUDIO_PACKETS_IN_QUEUE := by
  intro stream
  induction stream with
  | nil =>
      intro q h
      simp only [pushOutboundAll, List.length_nil]
      omega
  | cons p ps ih =>
      intro q h
      simp only [pushOutboundAll, List.length_cons]
      have h1 := pushOutbound_length dropOldest q p h
      have h2 : (pushOutbound dropOldest q p).length ≤
          MAX_AUDIO_PACKETS_IN_QUEUE := by omega
      rw [ih (pushOutbound dropOldest q p) h2, h1]
      omega

/-- C2: the outbound audio queue never exceeds its configured capacity
`MAX_AUDIO_PACKETS_IN_QUEUE` = 2400/60 = 40 packets, whichever admissible
drop policy is in force, for every stream of produced frames and stalled
consumer; in particular pushing 100 frames onto an empty queue retains
exactly 40 frames, never 41. -/
theorem outbound_audio_queue_bounded (dropOldest : Bool)
    (q stream : List AudioStreamPacket)
    (h : q.length ≤ MAX_AUDIO_PACKETS_IN_QUEUE) :
    MAX_AUDIO_PACKETS_IN_QUEUE = 40 ∧
    (pushOutboundAll dropOldest q stream).length ≤
      MAX_AUDIO_PACKETS_IN_QUEUE ∧
    (pushOutboundAll dropOldest q stream).length =
      min (q.length + stream.length) MAX_AUDIO_PACKETS_IN_QUEUE ∧
    (stream.length = 100 →
      (pushOutboundAll dropOldest [] stream).length = 40) := by
  have hlaw := pushOutboundAll_length dropOldest stream q h
  refine ⟨rfl, by omega, hlaw, ?_⟩
  intro h100
  have hnil := pushOutboundAll_length dropOldest stream [] (by simp)
  rw [hnil, h100]
  rfl

/-- Concrete instance of C2: pushing 100 frames with a stalled consumer
retains exactly 40 under the drop-oldest policy. -/
theorem outbound_audio_queue_bounded_witness :
    (pushOutboundAll true []
      (List.replicate 100 (AudioStreamPacket.mk 0 []))).length = 40 :=
  (outbound_audio_queue_bounded true []
    (List.replicate 100 (AudioStreamPacket.mk 0 [])) (by simp)).2.2.2
    (by simp)

/-! ## Remote sequence validation (src/main/protocols/mqtt_protocol.h
lines 82-83)

`remote_sequence_` is declared in the header; the UDP receive path that
maintains it lives in mqtt_protocol.cc, which is not under src/. -/

/-- The result of the inbound UDP audio path for one datagram:
whether the frame was delivered to the audio-received callback, the updated
`remote_sequence_`, and whether a network error was raised. -/
structure RxResult where
  delivered : Bool
  remote_sequence : Nat
  error : Bool
deriving DecidableEq, Repr

/-- Modelled from the spec: mqtt_protocol.cc is not under src/.  Spec
section 4.2: on receipt the layer validates that the remote sequence
counter is strictly greater than the last seen value; on replay or
out-of-order it drops and logs without raising an error, otherwise it
delivers the frame and records the new sequence value. -/
def udpReceiveSeq (remote_sequence seq : Nat) : RxResult :=
  if remote_sequence < seq then RxResult.mk true seq false
  else RxResult.mk false remote_sequence false

def deliverSequence (remote_sequence : Nat) : List Nat → List Nat
  | [] => []
  | s :: rest =>
      let r := udpReceiveSeq remote_sequence s
      if r.delivered then s :: deliverSequence r.remote_sequence rest
      else deliverSequence r.remote_sequence rest

/-- C3: an inbound frame is delivered to the audio-received callback iff
its remote sequence number is strictly greater than the last-seen value; a
frame failing the check is dropped with the state unchanged and without
raising an error; for arrival order [5,6,8,7,9] starting from the reset
counter 0, frames 5,6,8,9 are delivered and frame 7 is dropped. -/
theorem remote_sequence_validation (last seq : Nat) :
    ((udpReceiveSeq last seq).delivered = true ↔ last < seq) ∧
    ((udpReceiveSeq last seq).delivered = false →
      (udpReceiveSeq last seq).remote_sequence = last ∧
      (udpReceiveSeq last seq).error = false) ∧
    deliverSequence 0 [5, 6, 8, 7, 9] = [5, 6, 8, 9] := by
  refine ⟨?_, ?_, by rfl⟩
  · simp only [udpReceiveSeq]
    by_cases hlt : last < seq
    · simp [hlt]
    · simp [hlt]
  · intro hnd
    simp only [udpReceiveSeq] at hnd ⊢
    by_cases hlt : last < seq
    · rw [if_pos hlt] at hnd; cases hnd
    · rw [if_neg hlt]
      exact ⟨rfl, rfl⟩

/-- Concrete instance of C3 at last-seen 8 and arriving 7: dropped, state
kept, no error. -/
theorem remote_sequence_validation_witness :
    (udpReceiveSeq 8 7).remote_sequence = 8 ∧ (udpReceiveSeq 8 7).error = false :=
  (remote_sequence_validation 8 7).2.1 (by rfl)

/-! ## Binary audio framing (src/main/protocols/protocol.h lines 30-37)

`BinaryProtocol2` is a packed struct: version:u16, type:u16, reserved:u32,
timestamp:u32, payload_size:u32, then the payload — a fixed 16-byte
header.  The struct layout is taken from the header; the serializer and
parser around it live in websocket_protocol.cc, which is not under src/,
so they are modelled from the spec (network byte order). -/

def putU16 (n : Nat) : List Nat :=
  [n / 256 % 256, n % 256]

def putU32 (n : Nat) : List Nat :=
  [n / 16777216 % 256, n / 65536 % 256, n / 256 % 256, n % 256]

/-- Modelled from the spec: the `BinaryProtocol2` serializer (in
websocket_protocol.cc, not under src/) lays out the fixed 16-byte header —
version:u16, type:u16, reserved:u32 (zero), timestamp:u32,
payload_size:u32 — followed by the payload bytes. -/
def encodeBinaryProtocol2 (version mtype : Nat) (p : AudioStreamPacket) :
    List Nat :=
  putU16 version ++ putU16 mtype ++ putU32 0 ++ putU32 p.timestamp ++
    putU32 p.payload.length ++ p.payload

/-- Modelled from the spec: the inbound `BinaryProtocol2` parser (in
websocket_protocol.cc, not under src/) reads the 16-byte header and then
`payload_size` payload bytes, rejecting truncated frames. -/
def parseBinaryProtocol2 : List Nat → Option (Nat × Nat × AudioStreamPacket)
  | v1 :: v0 :: t1 :: t0 :: _ :: _ :: _ :: _ ::
      s3 :: s2 :: s1 :: s0 :: z3 :: z2 :: z1 :: z0 :: rest =>
      if ((z3 * 256 + z2) * 256 + z1) * 256 + z0 ≤ rest.length then
        some (v1 * 256 + v0, t1 * 256 + t0,
          AudioStreamPacket.mk (((s3 * 256 + s2) * 256 + s1) * 256 + s0)
            (rest.take (((z3 * 256 + z2) * 256 + z1) * 256 + z0)))
      else none
  | _ => none

/-- C6: for every timestamp T in uint32 range and every payload P whose
length 0..max_payload fits the u32 payload_size field, encoding
AudioStreamPacket{timestamp=T, payload=P} into the full binary frame and
parsing that frame back yields an identical packet {timestamp=T, payload=P}
(the version and type fields round-trip as well), and the frame consists of
the fixed 16-byte header — version:u16, type:u16, reserved:u32,
timestamp:u32, payload_size:u32, exactly the packed field layout of
`BinaryProtocol2` in protocol.h lines 30-37 — followed by the payload. -/
theorem binary_protocol2_roundtrip (version mtype : Nat)
    (p : AudioStreamPacket) (hv : version < 65536) (ht : mtype < 65536)
    (hts : p.timestamp < 4294967296) (hp : p.payload.length < 4294967296) :
    parseBinaryProtocol2 (encodeBinaryProtocol2 version mtype p) =
      some (version, mtype, p) ∧
    (encodeBinaryProtocol2 version mtype p).length = 16 + p.payload.length := by
  obtain ⟨ts, payload⟩ := p
  simp only at hts hp
  constructor
  · simp only [encodeBinaryProtocol2, putU16, putU32, List.cons_append,
               List.nil_append, parseBinaryProtocol2]
    have hps : ((payload.length / 16777216 % 256 * 256 +
        payload.length / 65536 % 256) * 256 + payload.length / 256 % 256) *
        256 + payload.length % 256 = payload.length := by omega
    have hv2 : version / 256 % 256 * 256 + version % 256 = version := by omega
    have ht2 : mtype / 256 % 256 * 256 + mtype % 256 = mtype := by omega
    have hts2 : ((ts / 16777216 % 256 * 256 + ts / 65536 % 256) * 256 +
        ts / 256 % 256) * 256 + ts % 256 = ts := by omega
    rw [hps, hv2, ht2, hts2, if_pos (le_refl payload.length), List.take_length]
  · simp only [encodeBinaryProtocol2, putU16, putU32, List.length_append,
               List.length_cons, List.length_nil]

/-- Concrete instance of C6: a packet with timestamp 123 and a two-byte
payload round-trips through the full binary frame, and its frame is the
16-byte header plus the two payload bytes. -/
theorem binary_protocol2_roundtrip_witness :
    parseBinaryProtocol2
        (encodeBinaryProtocol2 1 0 (AudioStreamPacket.mk 123 [9, 8])) =
      some (1, 0, AudioStreamPacket.mk 123 [9, 8]) ∧
    (encodeBinaryProtocol2 1 0 (AudioStreamPacket.mk 123 [9, 8])).length =
      16 + (AudioStreamPacket.mk 123 [9, 8]).payload.length :=
  ⟨(binary_protocol2_roundtrip 1 0 (AudioStreamPacket.mk 123 [9, 8])
      (by decide) (by decide) (by decide) (by decide)).1,
   (binary_protocol2_roundtrip 1 0 (AudioStreamPacket.mk 123 [9, 8])
      (by decide) (by decide) (by decide) (by decide)).2⟩

/-! ## Hello handshake (src/main/protocols/websocket_protocol.h lines 41-42,
mqtt_protocol.h lines 52-53)

`OpenAudioChannel` is declared in both protocol headers; its bodies live in
the protocol .cc files, which are not under src/, so the handshake is
modelled from the spec. -/

structure ServerHelloData where
  session_id : String
  sample_rate : Nat
  frame_duration : Nat
deriving DecidableEq, Repr

/-- What the transport yields during one tick of the bounded hello wait:
nothing, a hello that fails to parse, or a well-formed server hello. -/
inductive HelloReply where
  | absent
  | malformed
  | valid (d : ServerHelloData)
deriving DecidableEq, Repr

/-- Session state left by `OpenAudioChannel`; the closed state carries the
defaults of protocol.h (sample rate 24000, frame duration 60) and no
session id. -/
structure AudioChannel where
  established : Bool
  session_id : String
  server_sample_rate : Nat
  server_frame_duration : Nat
deriving DecidableEq, Repr

def AudioChannel.closed : AudioChannel := AudioChannel.mk false ("") 24000 60

/-- Modelled from the spec: the client blocks with a timeout on a condition
signalled when the server hello arrives; the wait inspects at most
`timeout_ticks` transport events and returns the first non-absent reply,
or `absent` when the window elapses with no reply. -/
def waitServerHello : (Nat → HelloReply) → Nat → HelloReply
  | _, 0 => HelloReply.absent
  | replies, t + 1 =>
      match replies 0 with
      | HelloReply.absent => waitServerHello (fun n => replies (n + 1)) t
      | r => r

/-- Modelled from the spec: websocket_protocol.cc and mqtt_protocol.cc are
not under src/.  `OpenAudioChannel` sends the client hello, waits for the
server hello within the timeout window, and establishes the session only
when a well-formed hello arrived; on timeout or malformed hello it returns
false and leaves no session state established. -/
def OpenAudioChannel (replies : Nat → HelloReply) (timeout_ticks : Nat) :
    Bool × AudioChannel :=
  match waitServerHello replies timeout_ticks with
  | HelloReply.valid d =>
      (true, AudioChannel.mk true d.session_id d.sample_rate d.frame_duration)
  | HelloReply.malformed => (false, AudioChannel.closed)
  | HelloReply.absent => (false, AudioChannel.closed)

theorem waitServerHello_absent :
    ∀ (timeout_ticks : Nat) (replies : Nat → HelloReply),
    (∀ t, t < timeout_ticks → replies t = HelloReply.absent) →
    waitServerHello replies timeout_ticks = HelloReply.absent := by
  intro timeout_ticks
  induction timeout_ticks with
  | zero => intro replies _; rfl
  | succ t ih =>
      intro replies h
      have h0 : replies 0 = HelloReply.absent := h 0 (Nat.succ_pos t)
      simp only [waitServerHello, h0]
      exact ih (fun n => replies (n + 1)) (fun u hu => h (u + 1) (by omega))

/-- C4: when the server hello never arrives within the timeout window the
bounded wait elapses and `OpenAudioChannel` returns false (it inspects at
most `timeout_ticks` events, so it cannot hang); a malformed hello also
yields false; and every failing open leaves the channel in the closed
state, with no session established. -/
theorem open_audio_channel_fails_closed (replies : Nat → HelloReply)
    (timeout_ticks : Nat)
    (h : ∀ t, t < timeout_ticks → replies t = HelloReply.absent) :
    OpenAudioChannel replies timeout_ticks = (false, AudioChannel.closed) ∧
    (∀ rs n, waitServerHello rs n = HelloReply.malformed →
      OpenAudioChannel rs n = (false, AudioChannel.closed)) ∧
    (∀ rs n, (OpenAudioChannel rs n).1 = false →
      (OpenAudioChannel rs n).2 = AudioChannel.closed) := by
  refine ⟨?_, ?_, ?_⟩
  · simp only [OpenAudioChannel, waitServerHello_absent timeout_ticks replies h]
  · intro rs n hm
    simp only [OpenAudioChannel, hm]
  · intro rs n hf
    simp only [OpenAudioChannel] at hf ⊢
    cases hw : waitServerHello rs n with
    | absent => simp [hw]
    | malformed => simp [hw]
    | valid d => rw [hw] at hf; cases hf

/-- Concrete instance of C4: a transport that never responds makes
`OpenAudioChannel` return false with the channel closed. -/
theorem open_audio_channel_fails_closed_witness :
    OpenAudioChannel (fun _ => HelloReply.absent) 10 =
      (false, AudioChannel.closed) :=
  (open_audio_channel_fails_closed (fun _ => HelloReply.absent) 10
    (fun _ _ => rfl)).1

/-! ## MqttProtocol::SendAudio (src/main/protocols/mqtt_protocol.h lines
49-50, 82-83)

The channel state of the MQTT+UDP variant: whether the UDP channel object
exists (`udp_ != nullptr`), and the two sequence counters declared in the
header. -/

structure MqttChannelState where
  udp_connected : Bool
  local_sequence : Nat
  remote_sequence : Nat
deriving DecidableEq, Repr

/-- Modelled from the spec: mqtt_protocol.cc is not under src/.
`IsAudioChannelOpened` reports whether the UDP channel exists. -/
def MqttIsAudioChannelOpened (st : MqttChannelState) : Bool :=
  st.udp_connected

/-- Modelled from the spec: mqtt_protocol.cc is not under src/.
`SendAudio` fails (returns false) when the audio channel is not open;
otherwise it serializes the packet, encrypts it with a nonce derived from
`local_sequence_` (the encryption is abstracted as tagging the datagram
with the sequence number) and increments the counter.  The result is
(success, updated state, transmitted datagram if any). -/
def MqttSendAudio (st : MqttChannelState) (p : AudioStreamPacket) :
    Bool × MqttChannelState × Option (List Nat) :=
  if st.udp_connected then
    (true, { st with local_sequence := st.local_sequence + 1 },
     some (putU32 st.local_sequence ++ p.payload))
  else (false, st, none)

/-- C8: for every packet, `SendAudio` returns false whenever the audio
channel is not open, and in that case no datagram is transmitted and the
state — in particular the local sequence counter — is unchanged. -/
theorem send_audio_requires_open_channel (st : MqttChannelState)
    (p : AudioStreamPacket) (h : MqttIsAudioChannelOpened st = false) :
    MqttSendAudio st p = (false, st, none) := by
  simp only [MqttIsAudioChannelOpened] at h
  simp [MqttSendAudio, h]

/-- Concrete instance of C8: sending on a closed channel fails without
advancing the sequence counter or emitting a datagram. -/
theorem send_audio_requires_open_channel_witness :
    MqttSendAudio (MqttChannelState.mk false 3 7) (AudioStreamPacket.mk 0 [1]) =
      (false, MqttChannelState.mk false 3 7, none) :=
  send_audio_requires_open_channel (MqttChannelState.mk false 3 7)
    (AudioStreamPacket.mk 0 [1]) rfl

end XiaoZhi
